import Mathlib

/-!
Verification of the `AdvinstTool` provisioning pipeline
(`src/advinsttool.ts` of the advinst-github-action repository).

Strings of the JavaScript source are modelled as `List Char`.  JavaScript
truthiness tests on strings (`if (customUrl)`, `if (!toolRoot)`,
`if (this.license)`) become emptiness tests on the list.  External effects
(the tool cache, the network, command execution, the file system, the
process environment) are modelled by an explicit environment `Env` of
response functions, and each operation returns its result together with the
ordered list of external `Event`s it performed.
-/

/-- Embedding of JavaScript `version.split('.')` on `List Char`:
`splitOnDotAux cs acc` scans `cs`, accumulating the current component in
`acc` (reversed).  Like the JavaScript `String.prototype.split` with a
non-empty separator, the result is never empty: `splitOnDot [] = [[]]`. -/
def splitOnDotAux : List Char → List Char → List (List Char)
  | [], acc => [acc.reverse]
  | c :: cs, acc =>
    if c = '.' then acc.reverse :: splitOnDotAux cs []
    else splitOnDotAux cs (c :: acc)

/-- JavaScript `s.split('.')` (split on the dot separator). -/
def splitOnDot (s : List Char) : List (List Char) :=
  splitOnDotAux s []

/-- The `AdvinstTool` class state: constructor arguments `version`,
`license`, `enableCom` (src/advinsttool.ts lines 33-37). -/
structure AdvinstTool where
  version : List Char
  license : List Char
  enableCom : Bool

/-- `AdvinstTool.normalizeVersionForCache` (src/advinsttool.ts lines 44-64):
split on '.', return the input unchanged for 3 or more parts, append ".0"
for exactly 2 parts, append ".0.0" for exactly 1 part, and fall back to the
input otherwise. -/
def AdvinstTool.normalizeVersionForCache (version : List Char) : List Char :=
  if 3 ≤ (splitOnDot version).length then
    version
  else if (splitOnDot version).length = 2 then
    version ++ ['.', '0']
  else if (splitOnDot version).length = 1 then
    version ++ ['.', '0', '.', '0']
  else
    version

theorem splitOnDotAux_length_pos (cs acc : List Char) :
    0 < (splitOnDotAux cs acc).length := by
  induction cs generalizing acc with
  | nil => simp [splitOnDotAux]
  | cons c cs ih =>
    by_cases h : c = '.' <;> simp [splitOnDotAux, h, ih]

theorem splitOnDot_length_pos (s : List Char) : 0 < (splitOnDot s).length :=
  splitOnDotAux_length_pos s []

theorem splitOnDotAux_append_dot_zero (cs acc : List Char) :
    splitOnDotAux (cs ++ ['.', '0']) acc = splitOnDotAux cs acc ++ [['0']] := by
  induction cs generalizing acc with
  | nil => simp [splitOnDotAux]
  | cons c cs ih =>
    by_cases h : c = '.' <;> simp [splitOnDotAux, h, ih]

theorem splitOnDot_append_dot_zero (v : List Char) :
    splitOnDot (v ++ ['.', '0']) = splitOnDot v ++ [['0']] :=
  splitOnDotAux_append_dot_zero v []

theorem splitOnDot_append_dot_zero_twice (v : List Char) :
    splitOnDot (v ++ ['.', '0', '.', '0']) = splitOnDot v ++ [['0'], ['0']] := by
  have h : v ++ ['.', '0', '.', '0'] = (v ++ ['.', '0']) ++ ['.', '0'] := by
    simp
  rw [h, splitOnDot_append_dot_zero, splitOnDot_append_dot_zero]
  simp

/-- C6: normalization is idempotent:
`normalizeVersionForCache (normalizeVersionForCache v) = normalizeVersionForCache v`
for every version string `v`. -/
theorem claim6_normalize_idempotent (v : List Char) :
    AdvinstTool.normalizeVersionForCache (AdvinstTool.normalizeVersionForCache v) =
      AdvinstTool.normalizeVersionForCache v := by
  by_cases h3 : 3 ≤ (splitOnDot v).length
  · have h : AdvinstTool.normalizeVersionForCache v = v := by
      simp [AdvinstTool.normalizeVersionForCache, h3]
    rw [h]; exact h
  · by_cases h2 : (splitOnDot v).length = 2
    · have h : AdvinstTool.normalizeVersionForCache v = v ++ ['.', '0'] := by
        simp [AdvinstTool.normalizeVersionForCache, h2]
      have hlen : (splitOnDot (v ++ ['.', '0'])).length = 3 := by
        rw [splitOnDot_append_dot_zero]; simp [h2]
      rw [h]
      simp [AdvinstTool.normalizeVersionForCache, hlen]
    · have h1 : (splitOnDot v).length = 1 := by
        have := splitOnDot_length_pos v
        omega
      have h : AdvinstTool.normalizeVersionForCache v = v ++ ['.', '0', '.', '0'] := by
        simp [AdvinstTool.normalizeVersionForCache, h1]
      have hlen : (splitOnDot (v ++ ['.', '0', '.', '0'])).length = 3 := by
        rw [splitOnDot_append_dot_zero_twice]; simp [h1]
      rw [h]
      simp [AdvinstTool.normalizeVersionForCache, hlen]

/-- C5: branch policy of `normalizeVersionForCache`: 3 or more
dot-separated components are returned unchanged, exactly 2 components get a
zero patch component appended, and a non-empty input with exactly 1
component gets zero minor and patch components appended. -/
theorem claim5_branch_policy (v : List Char) :
    (3 ≤ (splitOnDot v).length → AdvinstTool.normalizeVersionForCache v = v)
    ∧ ((splitOnDot v).length = 2 →
        AdvinstTool.normalizeVersionForCache v = v ++ ['.', '0'])
    ∧ (v ≠ [] → (splitOnDot v).length = 1 →
        AdvinstTool.normalizeVersionForCache v = v ++ ['.', '0', '.', '0']) := by
  refine ⟨fun h3 => ?_, fun h2 => ?_, fun _ h1 => ?_⟩
  · simp [AdvinstTool.normalizeVersionForCache, h3]
  · simp [AdvinstTool.normalizeVersionForCache, h2]
  · simp [AdvinstTool.normalizeVersionForCache, h1]

/-- Witness for C5 at the concrete inputs "1.2.3", "2.1" and "7". -/
theorem claim5_witness :
    (3 ≤ (splitOnDot "1.2.3".toList).length
      ∧ AdvinstTool.normalizeVersionForCache "1.2.3".toList = "1.2.3".toList)
    ∧ ((splitOnDot "2.1".toList).length = 2
      ∧ AdvinstTool.normalizeVersionForCache "2.1".toList = "2.1".toList ++ ['.', '0'])
    ∧ ("7".toList ≠ ([] : List Char) ∧ (splitOnDot "7".toList).length = 1
      ∧ AdvinstTool.normalizeVersionForCache "7".toList =
          "7".toList ++ ['.', '0', '.', '0']) :=
  ⟨⟨by decide, (claim5_branch_policy _).1 (by decide)⟩,
    ⟨by decide, (claim5_branch_policy _).2.1 (by decide)⟩,
    ⟨by decide, by decide, (claim5_branch_policy _).2.2 (by decide) (by decide)⟩⟩

/-- C4 counterexample: the claim that `normalizeVersionForCache ""`
returns `""` unchanged is false: the empty string splits into one (empty)
component, so the single-component branch fires. -/
theorem claim4_cex :
    AdvinstTool.normalizeVersionForCache ([] : List Char) ≠ [] := by
  decide

/-- C4 amended: the empty string splits on '.' into exactly one (empty)
component, so `normalizeVersionForCache ""` takes the single-component
branch and returns ".0.0"; the zero-component fallback is unreachable. -/
theorem claim4_empty_input :
    (splitOnDot ([] : List Char)).length = 1
    ∧ AdvinstTool.normalizeVersionForCache ([] : List Char) = ['.', '0', '.', '0'] := by
  constructor <;> decide

/-- The static class constants of `AdvinstTool`
(src/advinsttool.ts lines 14-31), with `util.format` template substitution
expanded into list concatenation. -/
def advinstCacheToolName : List Char := "advinst".toList

/-- The fixed cache architecture component `advinstCacheToolArch`. -/
def advinstCacheToolArch : List Char := "x86".toList

/-- The environment variable name `advinstToolRootVar`. -/
def advinstToolRootVar : List Char := "AdvancedInstallerRoot".toList

/-- The environment variable name `advinstMSBuildTargetsVar`. -/
def advinstMSBuildTargetsVar : List Char := "AdvancedInstallerMSBuildTargets".toList

/-- `util.format(advinstDownloadUrlTemplate, version)`:
the version-templated default download URL. -/
def downloadUrlFor (version : List Char) : List Char :=
  "https://www.advancedinstaller.com/downloads/".toList ++ version
    ++ "/advinst.msi".toList

/-- `util.format(advinstExtractCmdTemplate, setupPath, extractFolder)`:
the msiexec extraction command line. -/
def extractCmdFor (setupPath extractFolder : List Char) : List Char :=
  "msiexec /a \"".toList ++ setupPath ++ "\" TARGETDIR=\"".toList
    ++ extractFolder ++ "\" /qn".toList

/-- `util.format(advinstRegisterCmdTemplate, toolPath, license)`:
the license registration command line. -/
def registerCmdFor (toolPath license : List Char) : List Char :=
  toolPath ++ " /RegisterCI ".toList ++ license

/-- `util.format(advinstStartComCmdTemplate, toolPath)`:
the COM self-registration command line. -/
def startComCmdFor (toolPath : List Char) : List Char :=
  toolPath ++ " /REGSERVER".toList

/-- `util.format(advinstComPathTemplate, toolRoot)`:
the expected executable path under a tool root. -/
def comPathFor (toolRoot : List Char) : List Char :=
  toolRoot ++ "\\bin\\x86\\advancedinstaller.com".toList

/-- `util.format(asdvinstMsbuildTagetPathTemplate, toolRoot)`:
the MSBuild targets path under a tool root. -/
def msbuildTargetsPathFor (toolRoot : List Char) : List Char :=
  toolRoot ++ "\\ProgramFilesFolder\\MSBuild\\Caphyon\\Advanced Installer".toList

/-- The error message `util.format('Expected to find %s, but it was not
found.', toolPath)` thrown at src/advinsttool.ts line 98. -/
def notFoundMsgFor (toolPath : List Char) : List Char :=
  "Expected to find ".toList ++ toolPath ++ ", but it was not found.".toList

/-- `path.dirname`: drop the final path component (after the last `\` or
`/` separator); `'.'` when there is no separator. -/
def dirnameOf (p : List Char) : List Char :=
  match (p.reverse.dropWhile fun c => !(c = '\\' || c = '/')) with
  | [] => ['.']
  | _ :: tail => tail.reverse

/-- External-effect responses: the behaviour of the collaborators of
`AdvinstTool` during one invocation.  `findResult` is `toolCache.find`
keyed by the version (the tool name and architecture arguments are the
fixed constants `advinst` / `x86`), returning `[]` for a miss;
`customUrl` is `getVariable('advancedinstaller_url')` with `[]` for
unset/empty; `downloadResult` is `toolCache.downloadTool`;
`runnerTempDir` is `getRunnerTempDir()`; `execResult` maps a command line
to the `(exitCode, stdout)` of `exec.getExecOutput`; `cacheDirResult` is
the root returned by `toolCache.cacheDir`; `fileExists` is `exists`. -/
structure Env where
  findResult : List Char → List Char
  customUrl : List Char
  downloadResult : List Char → Except (List Char) (List Char)
  runnerTempDir : List Char
  execResult : List Char → Nat × List Char
  cacheDirResult : List Char
  fileExists : List Char → Bool

/-- The observable external operations performed by one invocation, in
order.  `downloadCall`, `extractCall`, `registerCall`, `registerComCall`
mark entry into the corresponding `AdvinstTool` method; the other
constructors are single external effects. -/
inductive Event where
  | cacheLookup (name key arch : List Char)
  | downloadCall
  | downloadTool (url : List Char)
  | extractCall
  | execCmd (cmd : List Char)
  | cacheSave (name key arch : List Char)
  | registerCall
  | registerComCall
  | fileExistsCheck (path : List Char)
  | exportVar (name value : List Char)
  | addPath (dir : List Char)
deriving DecidableEq

/-- The download source `AdvinstTool.download` resolves: the custom URL
when the override variable is set (non-empty), otherwise the
version-templated default URL built from the raw version. -/
def downloadSourceUrl (t : AdvinstTool) (env : Env) : List Char :=
  if env.customUrl ≠ [] then env.customUrl else downloadUrlFor t.version

/-- `AdvinstTool.download` (src/advinsttool.ts lines 112-128): use the
custom URL verbatim when set, otherwise the version-templated URL; in
either case call `toolCache.downloadTool` on it. -/
def AdvinstTool.download (t : AdvinstTool) (env : Env) :
    Except (List Char) (List Char) × List Event :=
  if env.customUrl ≠ [] then
    (env.downloadResult env.customUrl,
      [Event.downloadCall, Event.downloadTool env.customUrl])
  else
    (env.downloadResult (downloadUrlFor t.version),
      [Event.downloadCall, Event.downloadTool (downloadUrlFor t.version)])

/-- `AdvinstTool.extract` (src/advinsttool.ts lines 130-152): run the
msiexec extraction command against `join(getRunnerTempDir(), 'advinst')`;
a non-zero exit code is an error carrying the command's stdout; on success
commit the folder to the cache under the normalized version and return the
cache root. -/
def AdvinstTool.extract (t : AdvinstTool) (env : Env) (setupPath : List Char) :
    Except (List Char) (List Char) × List Event :=
  let cmd := extractCmdFor setupPath (env.runnerTempDir ++ "\\advinst".toList)
  let ret := env.execResult cmd
  if ret.1 ≠ 0 then
    (Except.error ret.2, [Event.extractCall, Event.execCmd cmd])
  else
    (Except.ok env.cacheDirResult,
      [Event.extractCall, Event.execCmd cmd,
        Event.cacheSave advinstCacheToolName
          (AdvinstTool.normalizeVersionForCache t.version) advinstCacheToolArch])

/-- `AdvinstTool.register` (src/advinsttool.ts lines 154-167): when a
license is present run the registration command once; non-zero exit is an
error carrying stdout; no command when the license is absent. -/
def AdvinstTool.register (t : AdvinstTool) (env : Env) (toolPath : List Char) :
    Except (List Char) Unit × List Event :=
  if t.license ≠ [] then
    let cmd := registerCmdFor toolPath t.license
    let ret := env.execResult cmd
    if ret.1 ≠ 0 then
      (Except.error ret.2, [Event.registerCall, Event.execCmd cmd])
    else
      (Except.ok (), [Event.registerCall, Event.execCmd cmd])
  else
    (Except.ok (), [Event.registerCall])

/-- `AdvinstTool.registerCom` (src/advinsttool.ts lines 169-178): when the
COM flag is set run the self-registration command once; non-zero exit is an
error carrying stdout; no command when the flag is false. -/
def AdvinstTool.registerCom (t : AdvinstTool) (env : Env) (toolPath : List Char) :
    Except (List Char) Unit × List Event :=
  if t.enableCom then
    let cmd := startComCmdFor toolPath
    let ret := env.execResult cmd
    if ret.1 ≠ 0 then
      (Except.error ret.2, [Event.registerComCall, Event.execCmd cmd])
    else
      (Except.ok (), [Event.registerComCall, Event.execCmd cmd])
  else
    (Except.ok (), [Event.registerComCall])

/-- `AdvinstTool.exportVariables` (src/advinsttool.ts lines 180-186):
export the tool-root variable and the MSBuild-targets variable. -/
def AdvinstTool.exportVariables (toolRoot : List Char) : List Event :=
  [Event.exportVar advinstToolRootVar toolRoot,
    Event.exportVar advinstMSBuildTargetsVar (msbuildTargetsPathFor toolRoot)]

/-- Root resolution, src/advinsttool.ts lines 72-92 of `getPath`: look the
normalized version up in the cache; on a miss (empty result) download and
extract. -/
def AdvinstTool.resolveRoot (t : AdvinstTool) (env : Env) :
    Except (List Char) (List Char) × List Event :=
  let nv := AdvinstTool.normalizeVersionForCache t.version
  let lookupEv := Event.cacheLookup advinstCacheToolName nv advinstCacheToolArch
  if env.findResult nv ≠ [] then
    (Except.ok (env.findResult nv), [lookupEv])
  else
    match t.download env with
    | (Except.error e, dEv) => (Except.error e, lookupEv :: dEv)
    | (Except.ok setup, dEv) =>
      match t.extract env setup with
      | (Except.error e, xEv) => (Except.error e, lookupEv :: (dEv ++ xEv))
      | (Except.ok root, xEv) => (Except.ok root, lookupEv :: (dEv ++ xEv))

/-- Post-resolution steps, src/advinsttool.ts lines 94-109 of `getPath`:
check that the expected executable exists under the root (error
otherwise), then register, register COM, export the variables and add the
executable's directory to the PATH, returning the executable path. -/
def AdvinstTool.finishWithRoot (t : AdvinstTool) (env : Env) (toolRoot : List Char) :
    Except (List Char) (List Char) × List Event :=
  let toolPath := comPathFor toolRoot
  let checkEv := Event.fileExistsCheck toolPath
  if env.fileExists toolPath = false then
    (Except.error (notFoundMsgFor toolPath), [checkEv])
  else
    match t.register env toolPath with
    | (Except.error e, rEv) => (Except.error e, checkEv :: rEv)
    | (Except.ok _, rEv) =>
      match t.registerCom env toolPath with
      | (Except.error e, cEv) => (Except.error e, checkEv :: (rEv ++ cEv))
      | (Except.ok _, cEv) =>
        (Except.ok toolPath,
          checkEv :: (rEv ++ cEv ++ AdvinstTool.exportVariables toolRoot
            ++ [Event.addPath (dirnameOf toolPath)]))

/-- `AdvinstTool.getPath` (src/advinsttool.ts lines 66-110): resolve the
root from the cache or by download+extract, then perform the
post-resolution steps; any error aborts the sequence. -/
def AdvinstTool.getPath (t : AdvinstTool) (env : Env) :
    Except (List Char) (List Char) × List Event :=
  match t.resolveRoot env with
  | (Except.error e, evs) => (Except.error e, evs)
  | (Except.ok toolRoot, evs) =>
    let fin := t.finishWithRoot env toolRoot
    (fin.1, evs ++ fin.2)

/-- Selector: events marking entry into `download`. -/
def isDownloadCallEv : Event → Bool
  | Event.downloadCall => true
  | _ => false

/-- Selector: events marking entry into `extract`. -/
def isExtractCallEv : Event → Bool
  | Event.extractCall => true
  | _ => false

/-- Selector: external command executions. -/
def isExecEv : Event → Bool
  | Event.execCmd _ => true
  | _ => false

/-- Selector: process-environment mutations (variable export or PATH
extension). -/
def isMutationEv : Event → Bool
  | Event.exportVar _ _ => true
  | Event.addPath _ => true
  | _ => false

/-- The version keys of the cache lookups in a trace. -/
def lookupKeys (tr : List Event) : List (List Char) :=
  tr.filterMap fun e =>
    match e with
    | Event.cacheLookup _ k _ => some k
    | _ => none

/-- The version keys of the cache writes in a trace. -/
def saveKeys (tr : List Event) : List (List Char) :=
  tr.filterMap fun e =>
    match e with
    | Event.cacheSave _ k _ => some k
    | _ => none

theorem download_eq (t : AdvinstTool) (env : Env) :
    t.download env =
      (env.downloadResult (downloadSourceUrl t env),
        [Event.downloadCall, Event.downloadTool (downloadSourceUrl t env)]) := by
  by_cases h : env.customUrl = [] <;>
    simp [AdvinstTool.download, downloadSourceUrl, h]

theorem register_eq (t : AdvinstTool) (env : Env) (p : List Char) :
    t.register env p =
      (if t.license ≠ [] ∧ (env.execResult (registerCmdFor p t.license)).1 ≠ 0 then
          Except.error (env.execResult (registerCmdFor p t.license)).2
        else Except.ok (),
        Event.registerCall ::
          if t.license ≠ [] then [Event.execCmd (registerCmdFor p t.license)] else []) := by
  by_cases hl : t.license = [] <;>
    by_cases hr : (env.execResult (registerCmdFor p t.license)).1 = 0 <;>
      simp [AdvinstTool.register, hl, hr]

theorem registerCom_eq (t : AdvinstTool) (env : Env) (p : List Char) :
    t.registerCom env p =
      (if t.enableCom = true ∧ (env.execResult (startComCmdFor p)).1 ≠ 0 then
          Except.error (env.execResult (startComCmdFor p)).2
        else Except.ok (),
        Event.registerComCall ::
          if t.enableCom then [Event.execCmd (startComCmdFor p)] else []) := by
  by_cases hc : t.enableCom <;>
    by_cases hs : (env.execResult (startComCmdFor p)).1 = 0 <;>
      simp [AdvinstTool.registerCom, hc, hs]

theorem finish_eq (t : AdvinstTool) (env : Env) (root : List Char) :
    t.finishWithRoot env root =
      if env.fileExists (comPathFor root) = false then
        (Except.error (notFoundMsgFor (comPathFor root)),
          [Event.fileExistsCheck (comPathFor root)])
      else if t.license ≠ []
          ∧ (env.execResult (registerCmdFor (comPathFor root) t.license)).1 ≠ 0 then
        (Except.error (env.execResult (registerCmdFor (comPathFor root) t.license)).2,
          [Event.fileExistsCheck (comPathFor root), Event.registerCall,
            Event.execCmd (registerCmdFor (comPathFor root) t.license)])
      else if t.enableCom = true
          ∧ (env.execResult (startComCmdFor (comPathFor root))).1 ≠ 0 then
        (Except.error (env.execResult (startComCmdFor (comPathFor root))).2,
          Event.fileExistsCheck (comPathFor root) :: Event.registerCall ::
            ((if t.license ≠ []
                then [Event.execCmd (registerCmdFor (comPathFor root) t.license)]
                else [])
              ++ [Event.registerComCall,
                    Event.execCmd (startComCmdFor (comPathFor root))]))
      else
        (Except.ok (comPathFor root),
          Event.fileExistsCheck (comPathFor root) :: Event.registerCall ::
            ((if t.license ≠ []
                then [Event.execCmd (registerCmdFor (comPathFor root) t.license)]
                else [])
              ++ Event.registerComCall ::
                ((if t.enableCom
                    then [Event.execCmd (startComCmdFor (comPathFor root))]
                    else [])
                  ++ (AdvinstTool.exportVariables root
                    ++ [Event.addPath (dirnameOf (comPathFor root))])))) := by
  by_cases hf : env.fileExists (comPathFor root) = false <;>
    by_cases hl : t.license = [] <;>
      by_cases hr : (env.execResult (registerCmdFor (comPathFor root) t.license)).1 = 0 <;>
        by_cases hc : t.enableCom <;>
          by_cases hs : (env.execResult (startComCmdFor (comPathFor root))).1 = 0 <;>
            simp [AdvinstTool.finishWithRoot, register_eq, registerCom_eq,
              AdvinstTool.exportVariables, hf, hl, hr, hc, hs]

theorem resolveRoot_eq (t : AdvinstTool) (env : Env) :
    t.resolveRoot env =
      if env.findResult (AdvinstTool.normalizeVersionForCache t.version) ≠ [] then
        (Except.ok (env.findResult (AdvinstTool.normalizeVersionForCache t.version)),
          [Event.cacheLookup advinstCacheToolName
            (AdvinstTool.normalizeVersionForCache t.version) advinstCacheToolArch])
      else
        match env.downloadResult (downloadSourceUrl t env) with
        | Except.error e =>
          (Except.error e,
            [Event.cacheLookup advinstCacheToolName
                (AdvinstTool.normalizeVersionForCache t.version) advinstCacheToolArch,
              Event.downloadCall, Event.downloadTool (downloadSourceUrl t env)])
        | Except.ok setup =>
          if (env.execResult
              (extractCmdFor setup (env.runnerTempDir ++ "\\advinst".toList))).1 ≠ 0 then
            (Except.error (env.execResult
                (extractCmdFor setup (env.runnerTempDir ++ "\\advinst".toList))).2,
              [Event.cacheLookup advinstCacheToolName
                  (AdvinstTool.normalizeVersionForCache t.version) advinstCacheToolArch,
                Event.downloadCall, Event.downloadTool (downloadSourceUrl t env),
                Event.extractCall,
                Event.execCmd
                  (extractCmdFor setup (env.runnerTempDir ++ "\\advinst".toList))])
          else
            (Except.ok env.cacheDirResult,
              [Event.cacheLookup advinstCacheToolName
                  (AdvinstTool.normalizeVersionForCache t.version) advinstCacheToolArch,
                Event.downloadCall, Event.downloadTool (downloadSourceUrl t env),
                Event.extractCall,
                Event.execCmd
                  (extractCmdFor setup (env.runnerTempDir ++ "\\advinst".toList)),
                Event.cacheSave advinstCacheToolName
                  (AdvinstTool.normalizeVersionForCache t.version) advinstCacheToolArch]) := by
  by_cases hf : env.findResult (AdvinstTool.normalizeVersionForCache t.version) = []
  · cases hdl : env.downloadResult (downloadSourceUrl t env) with
    | error e =>
      simp [AdvinstTool.resolveRoot, download_eq, hf, hdl]
    | ok setup =>
      by_cases hx : (env.execResult
          (extractCmdFor setup (env.runnerTempDir ++ "\\advinst".toList))).1 = 0 <;>
        simp_all [AdvinstTool.resolveRoot, AdvinstTool.extract, download_eq]
  · simp [AdvinstTool.resolveRoot, hf]

theorem getPath_split (t : AdvinstTool) (env : Env) :
    (∃ e, t.resolveRoot env = (Except.error e, (t.getPath env).2)
      ∧ (t.getPath env).1 = Except.error e)
    ∨ (∃ root evs, t.resolveRoot env = (Except.ok root, evs)
      ∧ t.getPath env =
          ((t.finishWithRoot env root).1, evs ++ (t.finishWithRoot env root).2)) := by
  rcases hrr : t.resolveRoot env with ⟨res, evs⟩
  cases res with
  | error e =>
    left
    exact ⟨e, by simp [AdvinstTool.getPath, hrr], by simp [AdvinstTool.getPath, hrr]⟩
  | ok root =>
    right
    refine ⟨root, evs, rfl, ?_⟩
    simp [AdvinstTool.getPath, hrr]

theorem resolveRoot_lookupKeys (t : AdvinstTool) (env : Env) :
    lookupKeys (t.resolveRoot env).2 =
      [AdvinstTool.normalizeVersionForCache t.version] := by
  rw [resolveRoot_eq]
  split
  · simp [lookupKeys]
  · split
    · simp [lookupKeys]
    · split <;> simp [lookupKeys]

theorem resolveRoot_saveKeys (t : AdvinstTool) (env : Env) :
    saveKeys (t.resolveRoot env).2 = []
    ∨ saveKeys (t.resolveRoot env).2 =
        [AdvinstTool.normalizeVersionForCache t.version] := by
  rw [resolveRoot_eq]
  split
  · left; simp [saveKeys]
  · split
    · left; simp [saveKeys]
    · split
      · left; simp [saveKeys]
      · right; simp [saveKeys]

theorem resolveRoot_no_register_events (t : AdvinstTool) (env : Env) :
    Event.registerCall ∉ (t.resolveRoot env).2
    ∧ Event.registerComCall ∉ (t.resolveRoot env).2 := by
  rw [resolveRoot_eq]
  refine ⟨?_, ?_⟩ <;>
  · split
    · simp
    · split
      · simp
      · split <;> simp

theorem resolveRoot_fetch_counts (t : AdvinstTool) (env : Env) :
    ((t.resolveRoot env).2.filter isDownloadCallEv).length ≤ 1
    ∧ ((t.resolveRoot env).2.filter isExtractCallEv).length ≤ 1 := by
  rw [resolveRoot_eq]
  refine ⟨?_, ?_⟩ <;>
  · split
    · simp [isDownloadCallEv, isExtractCallEv]
    · split
      · simp [isDownloadCallEv, isExtractCallEv]
      · split <;> simp [isDownloadCallEv, isExtractCallEv]

theorem resolveRoot_no_mutation (t : AdvinstTool) (env : Env) :
    (t.resolveRoot env).2.filter isMutationEv = [] := by
  rw [resolveRoot_eq]
  split
  · simp [isMutationEv]
  · split
    · simp [isMutationEv]
    · split <;> simp [isMutationEv]

theorem finish_keys (t : AdvinstTool) (env : Env) (root : List Char) :
    lookupKeys (t.finishWithRoot env root).2 = []
    ∧ saveKeys (t.finishWithRoot env root).2 = [] := by
  rw [finish_eq]
  by_cases hl : t.license = [] <;> by_cases hc : t.enableCom <;>
    split_ifs <;>
      simp [lookupKeys, saveKeys, AdvinstTool.exportVariables, hl, hc]

theorem finish_no_fetch (t : AdvinstTool) (env : Env) (root : List Char) :
    (t.finishWithRoot env root).2.filter isDownloadCallEv = []
    ∧ (t.finishWithRoot env root).2.filter isExtractCallEv = [] := by
  rw [finish_eq]
  by_cases hl : t.license = [] <;> by_cases hc : t.enableCom <;>
    split_ifs <;>
      simp [isDownloadCallEv, isExtractCallEv, AdvinstTool.exportVariables, hl, hc]

theorem finish_trace_head (t : AdvinstTool) (env : Env) (root : List Char) :
    ∃ l, (t.finishWithRoot env root).2 =
      Event.fileExistsCheck (comPathFor root) :: l := by
  rw [finish_eq]
  split_ifs <;> exact ⟨_, rfl⟩

theorem finish_no_mutation_on_error (t : AdvinstTool) (env : Env) (root : List Char)
    (e : List Char) (h : (t.finishWithRoot env root).1 = Except.error e) :
    (t.finishWithRoot env root).2.filter isMutationEv = [] := by
  rw [finish_eq] at h ⊢
  by_cases hl : t.license = [] <;> by_cases hc : t.enableCom <;>
    split_ifs at h ⊢ <;>
      simp_all [isMutationEv, AdvinstTool.exportVariables]

theorem getPath_lookupKeys (t : AdvinstTool) (env : Env) :
    lookupKeys (t.getPath env).2 =
      [AdvinstTool.normalizeVersionForCache t.version] := by
  rcases getPath_split t env with ⟨e, h1, _⟩ | ⟨root, evs, h1, h2⟩
  · have h := resolveRoot_lookupKeys t env
    rw [h1] at h
    exact h
  · have h := resolveRoot_lookupKeys t env
    rw [h1] at h
    rw [h2]
    simp only [lookupKeys, List.filterMap_append] at h ⊢
    have hf := (finish_keys t env root).1
    simp only [lookupKeys] at hf
    rw [h, hf]
    simp

theorem getPath_saveKeys (t : AdvinstTool) (env : Env) :
    saveKeys (t.getPath env).2 = []
    ∨ saveKeys (t.getPath env).2 =
        [AdvinstTool.normalizeVersionForCache t.version] := by
  rcases getPath_split t env with ⟨e, h1, _⟩ | ⟨root, evs, h1, h2⟩
  · have h := resolveRoot_saveKeys t env
    rw [h1] at h
    exact h
  · have h := resolveRoot_saveKeys t env
    rw [h1] at h
    rw [h2]
    simp only [saveKeys, List.filterMap_append] at h ⊢
    have hf := (finish_keys t env root).2
    simp only [saveKeys] at hf
    rw [hf]
    rcases h with h | h <;> rw [h] <;> simp

/-- C1: the cache lookup in `getPath` and the cache write in `extract` use
the same normalization of the requested version: every lookup key (and
every save key, when a write occurs) of a run equals
`normalizeVersionForCache version`, so two requests whose raw version
strings normalize identically resolve to the same cache entry. -/
theorem claim1_cache_key_consistency (t₁ t₂ : AdvinstTool) (env₁ env₂ : Env)
    (h : AdvinstTool.normalizeVersionForCache t₁.version =
      AdvinstTool.normalizeVersionForCache t₂.version) :
    lookupKeys (t₁.getPath env₁).2 =
      [AdvinstTool.normalizeVersionForCache t₁.version]
    ∧ lookupKeys (t₂.getPath env₂).2 =
        [AdvinstTool.normalizeVersionForCache t₁.version]
    ∧ (saveKeys (t₁.getPath env₁).2 = []
        ∨ saveKeys (t₁.getPath env₁).2 =
            [AdvinstTool.normalizeVersionForCache t₁.version])
    ∧ (saveKeys (t₂.getPath env₂).2 = []
        ∨ saveKeys (t₂.getPath env₂).2 =
            [AdvinstTool.normalizeVersionForCache t₁.version]) := by
  refine ⟨getPath_lookupKeys t₁ env₁, ?_, getPath_saveKeys t₁ env₁, ?_⟩
  · rw [getPath_lookupKeys t₂ env₂, h]
  · rw [h]
    exact getPath_saveKeys t₂ env₂

/-- C2: cache-hit path: when `toolCache.find` on the normalized version
returns a non-empty root, and the executable check and the external
commands succeed, `getPath` performs no download and no extraction, but
still enters `register` (running the registration command exactly when a
license is present), enters `registerCom`, exports both environment
variables for the cached root, and returns its executable path. -/
theorem claim2_cache_hit (t : AdvinstTool) (env : Env)
    (hfind : env.findResult (AdvinstTool.normalizeVersionForCache t.version) ≠ [])
    (hex : env.fileExists
      (comPathFor (env.findResult
        (AdvinstTool.normalizeVersionForCache t.version))) = true)
    (hexec : ∀ c, (env.execResult c).1 = 0) :
    Event.downloadCall ∉ (t.getPath env).2
    ∧ Event.extractCall ∉ (t.getPath env).2
    ∧ Event.registerCall ∈ (t.getPath env).2
    ∧ Event.registerComCall ∈ (t.getPath env).2
    ∧ Event.exportVar advinstToolRootVar
        (env.findResult (AdvinstTool.normalizeVersionForCache t.version))
        ∈ (t.getPath env).2
    ∧ Event.exportVar advinstMSBuildTargetsVar
        (msbuildTargetsPathFor
          (env.findResult (AdvinstTool.normalizeVersionForCache t.version)))
        ∈ (t.getPath env).2
    ∧ (t.license ≠ [] →
        Event.execCmd (registerCmdFor
          (comPathFor (env.findResult
            (AdvinstTool.normalizeVersionForCache t.version))) t.license)
          ∈ (t.getPath env).2)
    ∧ (t.enableCom = true →
        Event.execCmd (startComCmdFor
          (comPathFor (env.findResult
            (AdvinstTool.normalizeVersionForCache t.version))))
          ∈ (t.getPath env).2)
    ∧ (t.getPath env).1 =
        Except.ok (comPathFor (env.findResult
          (AdvinstTool.normalizeVersionForCache t.version))) := by
  have hrr : t.resolveRoot env =
      (Except.ok (env.findResult (AdvinstTool.normalizeVersionForCache t.version)),
        [Event.cacheLookup advinstCacheToolName
          (AdvinstTool.normalizeVersionForCache t.version) advinstCacheToolArch]) := by
    rw [resolveRoot_eq]
    simp [hfind]
  have hfin := finish_eq t env
    (env.findResult (AdvinstTool.normalizeVersionForCache t.version))
  rw [hex] at hfin
  simp only [hexec] at hfin
  norm_num at hfin
  have hgp : t.getPath env =
      ((t.finishWithRoot env
          (env.findResult (AdvinstTool.normalizeVersionForCache t.version))).1,
        [Event.cacheLookup advinstCacheToolName
            (AdvinstTool.normalizeVersionForCache t.version) advinstCacheToolArch]
          ++ (t.finishWithRoot env
              (env.findResult (AdvinstTool.normalizeVersionForCache t.version))).2) := by
    simp [AdvinstTool.getPath, hrr]
  by_cases hl : t.license = [] <;> by_cases hc : t.enableCom <;>
    simp [hgp, hfin, hl, hc, AdvinstTool.exportVariables]

/-- C3: cache-miss path: when `toolCache.find` returns the empty result
and the download and extraction succeed, `getPath` performs exactly one
`download` call followed by exactly one `extract` call (the first seven
events of the trace are the lookup, the download, the extraction with its
cache write, and then the executable-existence check), and no registration
call occurs among those events, i.e. the existence of the expected
executable is verified before any registration. -/
theorem claim3_cache_miss (t : AdvinstTool) (env : Env) (setup : List Char)
    (hfind : env.findResult (AdvinstTool.normalizeVersionForCache t.version) = [])
    (hdl : env.downloadResult (downloadSourceUrl t env) = Except.ok setup)
    (hxc : (env.execResult
      (extractCmdFor setup (env.runnerTempDir ++ "\\advinst".toList))).1 = 0) :
    ((t.getPath env).2.filter isDownloadCallEv).length = 1
    ∧ ((t.getPath env).2.filter isExtractCallEv).length = 1
    ∧ (t.getPath env).2.take 7 =
        [Event.cacheLookup advinstCacheToolName
            (AdvinstTool.normalizeVersionForCache t.version) advinstCacheToolArch,
          Event.downloadCall,
          Event.downloadTool (downloadSourceUrl t env),
          Event.extractCall,
          Event.execCmd (extractCmdFor setup (env.runnerTempDir ++ "\\advinst".toList)),
          Event.cacheSave advinstCacheToolName
            (AdvinstTool.normalizeVersionForCache t.version) advinstCacheToolArch,
          Event.fileExistsCheck (comPathFor env.cacheDirResult)]
    ∧ Event.registerCall ∉ (t.getPath env).2.take 7
    ∧ Event.registerComCall ∉ (t.getPath env).2.take 7 := by
  have hrr : t.resolveRoot env =
      (Except.ok env.cacheDirResult,
        [Event.cacheLookup advinstCacheToolName
            (AdvinstTool.normalizeVersionForCache t.version) advinstCacheToolArch,
          Event.downloadCall, Event.downloadTool (downloadSourceUrl t env),
          Event.extractCall,
          Event.execCmd (extractCmdFor setup (env.runnerTempDir ++ "\\advinst".toList)),
          Event.cacheSave advinstCacheToolName
            (AdvinstTool.normalizeVersionForCache t.version) advinstCacheToolArch]) := by
    rw [resolveRoot_eq]
    rw [hdl]
    have hxc' : (env.execResult (extractCmdFor setup
        (env.runnerTempDir ++ ['\\', 'a', 'd', 'v', 'i', 'n', 's', 't']))).1 = 0 := hxc
    simp [hfind, hxc, hxc']
  have hgp : t.getPath env =
      ((t.finishWithRoot env env.cacheDirResult).1,
        [Event.cacheLookup advinstCacheToolName
            (AdvinstTool.normalizeVersionForCache t.version) advinstCacheToolArch,
          Event.downloadCall, Event.downloadTool (downloadSourceUrl t env),
          Event.extractCall,
          Event.execCmd (extractCmdFor setup (env.runnerTempDir ++ "\\advinst".toList)),
          Event.cacheSave advinstCacheToolName
            (AdvinstTool.normalizeVersionForCache t.version) advinstCacheToolArch]
          ++ (t.finishWithRoot env env.cacheDirResult).2) := by
    simp [AdvinstTool.getPath, hrr]
  obtain ⟨l, hl⟩ := finish_trace_head t env env.cacheDirResult
  have hnf := finish_no_fetch t env env.cacheDirResult
  refine ⟨?_, ?_, ?_, ?_, ?_⟩
  · rw [hgp]
    simp only [List.filter_append, hnf.1]
    simp [isDownloadCallEv, isExtractCallEv]
  · rw [hgp]
    simp only [List.filter_append, hnf.2]
    simp [isDownloadCallEv, isExtractCallEv]
  · rw [hgp, hl]
    simp
  · rw [hgp, hl]
    simp
  · rw [hgp, hl]
    simp

/-- C7: when root resolution succeeds (cache hit or fresh extraction) but
the expected executable path under the root does not exist, `getPath`
fails with the not-found error, never enters `register` or `registerCom`,
and performs at most the one download and one extraction already done:
no second attempt is made. -/
theorem claim7_missing_executable (t : AdvinstTool) (env : Env) (root : List Char)
    (hroot : (t.resolveRoot env).1 = Except.ok root)
    (hex : env.fileExists (comPathFor root) = false) :
    (t.getPath env).1 = Except.error (notFoundMsgFor (comPathFor root))
    ∧ Event.registerCall ∉ (t.getPath env).2
    ∧ Event.registerComCall ∉ (t.getPath env).2
    ∧ ((t.getPath env).2.filter isDownloadCallEv).length ≤ 1
    ∧ ((t.getPath env).2.filter isExtractCallEv).length ≤ 1 := by
  rcases getPath_split t env with ⟨e, h1, _⟩ | ⟨root2, evs, h1, h2⟩
  · rw [h1] at hroot
    simp at hroot
  · have hroot2 : root2 = root := by
      rw [h1] at hroot
      simpa using hroot
    rw [hroot2] at h1 h2
    have hfin : t.finishWithRoot env root =
        (Except.error (notFoundMsgFor (comPathFor root)),
          [Event.fileExistsCheck (comPathFor root)]) := by
      rw [finish_eq, hex]
      simp
    have hnr := resolveRoot_no_register_events t env
    have hfc := resolveRoot_fetch_counts t env
    rw [h1] at hnr hfc
    refine ⟨?_, ?_, ?_, ?_, ?_⟩
    · rw [h2, hfin]
    · rw [h2, hfin]
      simp only [List.mem_append]
      rintro (h | h)
      · exact hnr.1 h
      · simp at h
    · rw [h2, hfin]
      simp only [List.mem_append]
      rintro (h | h)
      · exact hnr.2 h
      · simp at h
    · rw [h2, hfin]
      simp only [List.filter_append]
      have : ([Event.fileExistsCheck (comPathFor root)].filter isDownloadCallEv) = [] := by
        simp [isDownloadCallEv]
      rw [this]
      simpa using hfc.1
    · rw [h2, hfin]
      simp only [List.filter_append]
      have : ([Event.fileExistsCheck (comPathFor root)].filter isExtractCallEv) = [] := by
        simp [isExtractCallEv]
      rw [this]
      simpa using hfc.2

/-- C10: failure atomicity of environment mutation: whenever `getPath`
ends in an error (download, extraction, the executable-existence check,
the registration command or the COM command failing), its trace contains
no `exportVariables` export and no PATH addition; the process environment
is mutated only on fully successful invocations. -/
theorem claim10_no_mutation_on_error (t : AdvinstTool) (env : Env) (e : List Char)
    (herr : (t.getPath env).1 = Except.error e) :
    (t.getPath env).2.filter isMutationEv = [] := by
  rcases getPath_split t env with ⟨e2, h1, _⟩ | ⟨root, evs, h1, h2⟩
  · have h := resolveRoot_no_mutation t env
    rw [h1] at h
    exact h
  · have h := resolveRoot_no_mutation t env
    rw [h1] at h
    rw [h2] at herr ⊢
    simp only at herr
    simp only [List.filter_append, h]
    rw [finish_no_mutation_on_error t env root e herr]
    simp

/-- C8: conditional registration: `register` executes the external
registration command exactly once with the license value when a license is
present, and executes no command when it is absent; independently,
`registerCom` executes the COM self-registration command exactly once when
the flag is set and no command when it is not. -/
theorem claim8_conditional_registration (t : AdvinstTool) (env : Env)
    (toolPath : List Char) :
    (t.register env toolPath).2.filter isExecEv =
      (if t.license = [] then []
        else [Event.execCmd (registerCmdFor toolPath t.license)])
    ∧ (t.registerCom env toolPath).2.filter isExecEv =
      (if t.enableCom then [Event.execCmd (startComCmdFor toolPath)] else []) := by
  constructor
  · by_cases hl : t.license = [] <;>
      by_cases hr : (env.execResult (registerCmdFor toolPath t.license)).1 = 0 <;>
        simp [AdvinstTool.register, isExecEv, hl, hr]
  · by_cases hc : t.enableCom <;>
      by_cases hs : (env.execResult (startComCmdFor toolPath)).1 = 0 <;>
        simp [AdvinstTool.registerCom, isExecEv, hc, hs]

/-- C9: custom-source override: `download` always fetches
`downloadSourceUrl`, which is the override variable's value verbatim when
that variable is non-empty — in which case the requested version has no
influence on the source — and the fixed template with the raw
(un-normalized) version substituted otherwise. -/
theorem claim9_custom_url_override (t : AdvinstTool) (env : Env) :
    t.download env =
      (env.downloadResult (downloadSourceUrl t env),
        [Event.downloadCall, Event.downloadTool (downloadSourceUrl t env)])
    ∧ (env.customUrl ≠ [] →
        downloadSourceUrl t env = env.customUrl
        ∧ ∀ v, AdvinstTool.download { t with version := v } env = t.download env)
    ∧ (env.customUrl = [] →
        downloadSourceUrl t env = downloadUrlFor t.version) := by
  refine ⟨download_eq t env, fun h => ⟨?_, fun v => ?_⟩, fun h => ?_⟩
  · simp [downloadSourceUrl, h]
  · rw [download_eq, download_eq]
    simp [downloadSourceUrl, h]
  · simp [downloadSourceUrl, h]

/-- A sample cache root used by the concrete witnesses. -/
def sampleRoot : List Char := "C:\\cache\\advinst\\2.1.0\\x86".toList

/-- A sample request with a license and the COM flag set. -/
def sampleTool : AdvinstTool :=
  { version := "2.1".toList, license := "LICENSEKEY".toList, enableCom := true }

/-- A sample request without license and with the COM flag cleared. -/
def sampleToolPlain : AdvinstTool :=
  { version := "2.1.0".toList, license := [], enableCom := false }

/-- A sample environment whose cache lookup hits. -/
def sampleEnvHit : Env :=
  { findResult := fun _ => sampleRoot
    customUrl := []
    downloadResult := fun _ => Except.ok "C:\\tmp\\advinst.msi".toList
    runnerTempDir := "C:\\tmp".toList
    execResult := fun _ => (0, [])
    cacheDirResult := sampleRoot
    fileExists := fun _ => true }

/-- A sample environment whose cache lookup misses. -/
def sampleEnvMiss : Env :=
  { sampleEnvHit with findResult := fun _ => [] }

/-- A sample environment with a cache hit whose executable is missing. -/
def sampleEnvBroken : Env :=
  { sampleEnvHit with fileExists := fun _ => false }

/-- A sample environment with the custom-URL override set. -/
def sampleEnvCustom : Env :=
  { sampleEnvMiss with customUrl := "https://mirror.example/advinst.msi".toList }

/-- Witness for C1: the versions "2.1" and "2.1.0" normalize identically
and both runs use that one key for every lookup and save. -/
theorem claim1_witness :
    lookupKeys (sampleTool.getPath sampleEnvMiss).2 =
      [AdvinstTool.normalizeVersionForCache sampleTool.version]
    ∧ lookupKeys (sampleToolPlain.getPath sampleEnvHit).2 =
        [AdvinstTool.normalizeVersionForCache sampleTool.version]
    ∧ (saveKeys (sampleTool.getPath sampleEnvMiss).2 = []
        ∨ saveKeys (sampleTool.getPath sampleEnvMiss).2 =
            [AdvinstTool.normalizeVersionForCache sampleTool.version])
    ∧ (saveKeys (sampleToolPlain.getPath sampleEnvHit).2 = []
        ∨ saveKeys (sampleToolPlain.getPath sampleEnvHit).2 =
            [AdvinstTool.normalizeVersionForCache sampleTool.version]) :=
  claim1_cache_key_consistency sampleTool sampleToolPlain sampleEnvMiss sampleEnvHit
    (by decide)

/-- Witness for C2 at a concrete cache-hit environment. -/
theorem claim2_witness :
    Event.downloadCall ∉ (sampleTool.getPath sampleEnvHit).2
    ∧ Event.extractCall ∉ (sampleTool.getPath sampleEnvHit).2
    ∧ Event.registerCall ∈ (sampleTool.getPath sampleEnvHit).2
    ∧ Event.registerComCall ∈ (sampleTool.getPath sampleEnvHit).2
    ∧ (sampleTool.getPath sampleEnvHit).1 = Except.ok (comPathFor sampleRoot) := by
  have h := claim2_cache_hit sampleTool sampleEnvHit (by decide) (by decide)
    (fun _ => rfl)
  exact ⟨h.1, h.2.1, h.2.2.1, h.2.2.2.1, h.2.2.2.2.2.2.2.2⟩

/-- Witness for C3 at a concrete cache-miss environment. -/
theorem claim3_witness :
    ((sampleToolPlain.getPath sampleEnvMiss).2.filter isDownloadCallEv).length = 1
    ∧ ((sampleToolPlain.getPath sampleEnvMiss).2.filter isExtractCallEv).length = 1
    ∧ Event.registerCall ∉ (sampleToolPlain.getPath sampleEnvMiss).2.take 7 := by
  have h := claim3_cache_miss sampleToolPlain sampleEnvMiss
    "C:\\tmp\\advinst.msi".toList (by decide) rfl rfl
  exact ⟨h.1, h.2.1, h.2.2.2.1⟩

/-- Witness for C7 at a concrete environment whose cached root lacks the
executable. -/
theorem claim7_witness :
    (sampleTool.getPath sampleEnvBroken).1 =
      Except.error (notFoundMsgFor (comPathFor sampleRoot))
    ∧ Event.registerCall ∉ (sampleTool.getPath sampleEnvBroken).2
    ∧ Event.registerComCall ∉ (sampleTool.getPath sampleEnvBroken).2 := by
  have h := claim7_missing_executable sampleTool sampleEnvBroken sampleRoot
    rfl rfl
  exact ⟨h.1, h.2.1, h.2.2.1⟩

/-- Witness for C9 at a concrete environment with the override set: the
requested version does not influence the download. -/
theorem claim9_witness :
    sampleEnvCustom.customUrl ≠ []
    ∧ AdvinstTool.download { sampleTool with version := "9.9".toList } sampleEnvCustom =
        sampleTool.download sampleEnvCustom :=
  ⟨by decide,
    ((claim9_custom_url_override sampleTool sampleEnvCustom).2.1 (by decide)).2
      "9.9".toList⟩

/-- Witness for C10 at a concrete failing invocation (missing executable):
no environment mutation happens. -/
theorem claim10_witness :
    (sampleTool.getPath sampleEnvBroken).2.filter isMutationEv = [] :=
  claim10_no_mutation_on_error sampleTool sampleEnvBroken
    (notFoundMsgFor (comPathFor sampleRoot)) rfl
